import Mathlib

set_option maxRecDepth 100000

/- Verification development for the progression/verification engine of the
repository: a shallow embedding of bot/questions.py and bot/controller.py.
Text is modelled as `List Char`; Python dicts that preserve insertion order
are modelled as association lists; raised exceptions are modelled with
`Except`.  The external sandbox (`eval_python`) is abstracted as a function
argument returning either captured output text or a failure, matching the
gateway contract. -/

abbrev Str := List Char

/-- The whitespace class matched by the pattern's backslash-s for a str
pattern without the ASCII flag, which is CPython's Unicode whitespace test:
the controls U+0009 to U+000D, the space, the separators U+001C to U+001F,
next line U+0085, no-break space U+00A0, the Ogham space mark U+1680, the
space range U+2000 to U+200A, the line and paragraph separators U+2028 and
U+2029, the narrow no-break space U+202F, the medium mathematical space
U+205F and the ideographic space U+3000. -/
def wsChar (c : Char) : Bool :=
  (0x09 ≤ c.toNat && c.toNat ≤ 0x0d) || c = ' ' ||
    (0x1c ≤ c.toNat && c.toNat ≤ 0x1f) || c.toNat = 0x85 || c.toNat = 0xa0 ||
    c.toNat = 0x1680 || (0x2000 ≤ c.toNat && c.toNat ≤ 0x200a) ||
    c.toNat = 0x2028 || c.toNat = 0x2029 || c.toNat = 0x202f ||
    c.toNat = 0x205f || c.toNat = 0x3000

/-- The literal of the success pattern before the elapsed-time token. -/
def ranLit : Str := "Ran 1 test in ".toList

/-- The literal of the success pattern after the elapsed-time token: the
letter s, a blank line, OK and a newline. -/
def tailLit : Str := "s\n\nOK\n".toList

/-- Whether the compiled pattern of bot/questions.py line 15 matches the
whole of `r`: the pattern is the literal `ranLit`, then one or more
non-whitespace characters, then `tailLit`; because the pattern ends with the
end anchor, a match starting at some position must consume everything from
there to the anchor point. -/
def matchFrom (r : Str) : Bool :=
  decide (r.take 14 = ranLit) && decide (r.drop (r.length - 6) = tailLit) &&
    decide (21 ≤ r.length) && ((r.drop 14).take (r.length - 20)).all (fun c => !wsChar c)

/-- Whether the pattern matches ending exactly at the end of `cs`; the
search tries every start position. -/
def matchEndExact (cs : Str) : Bool :=
  (List.range (cs.length + 1)).any (fun i => matchFrom (cs.drop i))

/-- Embedding of `check_test.search(output)` for the compiled pattern of
bot/questions.py line 15: the end anchor matches at the very end of the
subject or just before one final newline, which is exactly the semantics of
the trailing dollar without the multiline flag. -/
def check_test_search (cs : Str) : Bool :=
  matchEndExact cs || (decide (cs.getLast? = some '\n') && matchEndExact cs.dropLast)

/-- The pattern the compiled regex accepts at an anchor point: some prefix,
the literal `ranLit`, a nonempty run of non-whitespace characters, and the
literal `tailLit` closing the text. -/
def SuccessPattern (cs : Str) : Prop :=
  ∃ a t, t ≠ [] ∧ (∀ c ∈ t, wsChar c = false) ∧ cs = a ++ ranLit ++ t ++ tailLit

/-- Whether every character of `t` is an ASCII digit. -/
def allDigits (t : Str) : Bool := t.all (fun c => c.isDigit)

/-- Modelled from the spec: the claimed classification pattern, in which the
elapsed time is a nonnegative decimal written with at least one fractional
digit and the trailer is anchored at the very end of the captured text. -/
def ClaimedC1 (cs : Str) : Prop :=
  ∃ a i f, allDigits i = true ∧ allDigits f = true ∧ i ≠ [] ∧ f ≠ [] ∧
    cs = a ++ ranLit ++ i ++ '.' :: f ++ tailLit

/-- A captured output whose trailer has a whole-number elapsed time and one
extra final newline; the compiled regex accepts it. -/
def cexOutput : Str := "Ran 1 test in 5s\n\nOK\n\n".toList

/-- One test case of a write-code question: the `input` and `output` entries
of the test-case record, both raw Python code text. -/
structure TestCase where
  input : Str
  output : Str
  deriving DecidableEq

/-- Fields of `WriteCodeQuestion` as set by its constructor. -/
structure WriteCodeQuestion where
  type : Str
  question : Str
  hints : List Str
  pre_code : Option Str
  unlocked_hints : Nat
  test_cases : List TestCase
  deriving DecidableEq

/-- Embedding of `WriteCodeQuestion.__init__`: the tag is fixed and the
unlocked-hint count starts at zero. -/
def mkWriteCodeQuestion (question : Str) (hints : List Str)
    (test_cases : List TestCase) (pre_code : Option Str) : WriteCodeQuestion :=
  ⟨"write_code".toList, question, hints, pre_code, 0, test_cases⟩

/-- Fields of `MultipleChoiceQuestion` as set by its constructor; the
insertion-ordered options dict is an association list. -/
structure MultipleChoiceQuestion where
  type : Str
  question : Str
  hints : List Str
  unlocked_hints : Nat
  options : List (Str × Str)
  answer : Str
  deriving DecidableEq

/-- Embedding of `MultipleChoiceQuestion.__init__`. -/
def mkMultipleChoiceQuestion (question : Str) (hints : List Str)
    (options : List (Str × Str)) (answer : Str) : MultipleChoiceQuestion :=
  ⟨"multiple_choice".toList, question, hints, 0, options, answer⟩

/-- Embedding of `WriteCodeQuestion._get_assert_equal_string`: the f-string
interpolates both code strings raw, with no space after the comma. -/
def get_assert_equal_string (i o : Str) : Str :=
  "self.assertEqual(".toList ++ i ++ [','] ++ o ++ [')']

/-- Column-tracking worker for Python `str.expandtabs(2)`: a tab is replaced
by the number of spaces needed to reach the next column that is a multiple
of two, and the column restarts at zero after a newline or a carriage
return. -/
def expandtabsAux : Str → Nat → Str
  | [], _ => []
  | c :: cs, col =>
    if c = '\t' then
      List.replicate (2 - col % 2) ' ' ++ expandtabsAux cs (col + (2 - col % 2))
    else if c = '\n' ∨ c = '\r' then
      c :: expandtabsAux cs 0
    else
      c :: expandtabsAux cs (col + 1)

/-- Embedding of `user_code.expandtabs(2)`. -/
def expandtabs2 (cs : Str) : Str := expandtabsAux cs 0

/-- Modelled from the spec: the tab normalization as the spec words it,
every horizontal tab character expanded to exactly two spaces. -/
def tabTwoSpaces : Str → Str
  | [] => []
  | c :: cs => (if c = '\t' then [' ', ' '] else [c]) ++ tabTwoSpaces cs

/-- Python `sep.join(xs)`. -/
def joinSep (sep : Str) : List Str → Str
  | [] => []
  | [x] => x
  | x :: y :: ys => x ++ sep ++ joinSep sep (y :: ys)

/-- Embedding of `WriteCodeQuestion._get_test_string`: pure assembly of the
unittest import line, the optional `pre_code` with no separator, the
tab-expanded user code, the test class with its single test method, the
joined assertion statements and the runner invocation. -/
def get_test_string (q : WriteCodeQuestion) (user_code : Str) : Str :=
  "import unittest\n".toList
    ++ (match q.pre_code with
        | none => []
        | some p => p)
    ++ expandtabs2 user_code
    ++ "\nclass Test(unittest.TestCase):\n".toList
    ++ " def test_cases(self):".toList
    ++ "\n  ".toList
    ++ joinSep ("\n  ".toList)
        (q.test_cases.map (fun tc => get_assert_equal_string tc.input tc.output))
    ++ "\nunittest.main()".toList

/-- Modelled from the spec: the harness builder as the claim words it,
identical to `get_test_string` except that tabs are normalized with
`tabTwoSpaces`. -/
def get_test_string_claimed (q : WriteCodeQuestion) (user_code : Str) : Str :=
  "import unittest\n".toList
    ++ (match q.pre_code with
        | none => []
        | some p => p)
    ++ tabTwoSpaces user_code
    ++ "\nclass Test(unittest.TestCase):\n".toList
    ++ " def test_cases(self):".toList
    ++ "\n  ".toList
    ++ joinSep ("\n  ".toList)
        (q.test_cases.map (fun tc => get_assert_equal_string tc.input tc.output))
    ++ "\nunittest.main()".toList

/-- The part of the harness preceding the first assertion line: everything
up to and including the test-method header line. -/
def headerText (q : WriteCodeQuestion) (user_code : Str) : Str :=
  "import unittest\n".toList
    ++ (match q.pre_code with
        | none => []
        | some p => p)
    ++ expandtabs2 user_code
    ++ "\nclass Test(unittest.TestCase):\n".toList
    ++ " def test_cases(self):".toList

/-- Whether `pat` occurs contiguously somewhere inside `cs`. -/
def containsSub (pat : Str) (cs : Str) : Bool :=
  (List.range (cs.length + 1)).any (fun i => decide ((cs.drop i).take pat.length = pat))

/-- Split a text into its lines at newline characters; a text with `k`
newlines has `k + 1` lines. -/
def splitLines : Str → List Str
  | [] => [[]]
  | c :: cs =>
    if c = '\n' then [] :: splitLines cs
    else
      match splitLines cs with
      | [] => [[c]]
      | l :: ls => (c :: l) :: ls

/-- The worked example of the spec: one test case with input `add(1,2)` and
expected output `3`, and no `pre_code`. -/
def exampleQ : WriteCodeQuestion :=
  mkWriteCodeQuestion ("Write add".toList) []
    [⟨"add(1,2)".toList, "3".toList⟩] none

/-- The worked example's submitted user code. -/
def exampleCode : Str := "def add(a,b): return a+b".toList

/-- Session status values of `QuestionStatus`. -/
inductive QuestionStatus where
  | IN_PROGRESS
  | CORRECT
  | INCORRECT
  | EXITED
  deriving DecidableEq

/-- Embedding of the guarded increment in `QuestionView.get_a_hint`: one
more hint is unlocked only while the count is below the number of hints. -/
def request_hint (hints : List Str) (unlocked : Nat) : Nat :=
  if unlocked < hints.length then unlocked + 1 else unlocked

/-- The unlocked-hint count after a number of hint requests starting from
the initial count of zero. -/
def hint_iter (hints : List Str) : Nat → Nat
  | 0 => 0
  | n + 1 => request_hint hints (hint_iter hints n)

/-- Outcome of one `eval_python` call: captured output text, or the service
failure that the gateway raises as an exception. -/
inductive SandboxOutcome where
  | output (text : Str)
  | failure
  deriving DecidableEq

/-- Embedding of `WriteCodeQuestion.check_response`: build the harness, call
the sandbox, and classify the captured output; a raising sandbox call
propagates as an error. -/
def check_response (q : WriteCodeQuestion) (code : Str)
    (sandbox : Str → SandboxOutcome) : Except Unit Bool :=
  match sandbox (get_test_string q code) with
  | .failure => .error ()
  | .output out => .ok (check_test_search out)

/-- Ephemeral messages the submit path can send to the user. -/
inductive UserSignal where
  | incorrectTryAgain
  | retryLater
  deriving DecidableEq

/-- Result of one pass through `WriteCodeQuestionView.submit_button` after
the user submitted code: the session status afterwards, the messages sent,
and whether the sandbox exception escaped the callback. -/
structure SubmitOutcome where
  status : QuestionStatus
  signals : List UserSignal
  raised : Bool
  deriving DecidableEq

/-- Embedding of the grading branch of `submit_button`: a correct answer
runs `on_success` (status `CORRECT`), a wrong one runs `on_fail` (status
`INCORRECT` plus the try-again message), and a raising `check_response`
leaves the status untouched, sends nothing, and lets the exception escape
the callback. -/
def submit_button (prior : QuestionStatus) (q : WriteCodeQuestion) (code : Str)
    (sandbox : Str → SandboxOutcome) : SubmitOutcome :=
  match check_response q code sandbox with
  | .error _ => ⟨prior, [], true⟩
  | .ok true => ⟨.CORRECT, [], false⟩
  | .ok false => ⟨.INCORRECT, [.incorrectTryAgain], false⟩

/-- Modelled from the spec: the Level collaborator boundary (levels.py is
not among the analysed sources); it exposes an integer id, an integer-pair
map position, a name and a topic. -/
structure Level where
  id : Int
  map_position : Int × Int
  name : Str
  topic : Str
  deriving DecidableEq

/-- Python exception values raised by the embedded code. -/
inductive PyError where
  | valueError (msg : Option Str)
  | typeError
  | keyError
  deriving DecidableEq

/-- The controller state: the `levels` dict as an insertion-ordered
association list from level id to level. -/
structure Controller where
  levels : List (Int × Level)
  deriving DecidableEq

/-- Embedding of `Controller.add_level`: raise on a duplicate id, raise on a
duplicate map position, otherwise append the binding; a raise happens before
any mutation, so a failing call leaves the registry as it was. -/
def add_level (c : Controller) (lv : Level) : Except PyError Controller :=
  if lv.id ∈ c.levels.map (fun p => p.1) then
    .error (.valueError (some ("User has completed the level".toList)))
  else if lv.map_position ∈ c.levels.map (fun p => p.2.map_position) then
    .error (.valueError none)
  else
    .ok ⟨c.levels ++ [(lv.id, lv)]⟩

/-- The loop of `Controller.get_level_map`: return the first level in
iteration order whose map position matches, else raise. -/
def find_by_position : List (Int × Level) → Int × Int → Except PyError Level
  | [], _ => .error (.valueError none)
  | p :: rest, pos =>
    if p.2.map_position = pos then .ok p.2 else find_by_position rest pos

/-- Embedding of `Controller.get_level_map`. -/
def get_level_map (c : Controller) (pos : Int × Int) : Except PyError Level :=
  find_by_position c.levels pos

/-- Embedding of `Controller.play_level`: the list comprehension calls
`level.run(use_level)` on every registered level in iteration order; each
element of the result records one run invocation as the pair of the invoked
level's id and the argument passed to `run`.  No lookup happens and nothing
is raised. -/
def play_level (c : Controller) (use_level : Int) : List (Int × Int) :=
  c.levels.map (fun p => (p.2.id, use_level))

/-- Controller states reachable from a fresh controller by successful
`add_level` calls. -/
inductive Reachable : Controller → Prop where
  | empty : Reachable ⟨[]⟩
  | step {c c' : Controller} {lv : Level} :
      Reachable c → add_level c lv = .ok c' → Reachable c'

/-- A sample level for concrete instances. -/
def lvlA : Level := ⟨1, (0, 0), "A".toList, "loops".toList⟩

/-- Another sample level with a distinct id and position. -/
def lvlB : Level := ⟨2, (1, 0), "B".toList, "lists".toList⟩

/-- A registry holding the two sample levels. -/
def regAB : Controller := ⟨[(1, lvlA), (2, lvlB)]⟩

/-- The loosely typed question-definition record handed to the factory:
every field optional, mirroring a JSON object with an arbitrary subset of
the keys. -/
structure QuestionData where
  type : Option Str
  question : Option Str
  hints : Option (List Str)
  options : Option (List (Str × Str))
  answer : Option Str
  test_cases : Option (List TestCase)
  pre_code : Option Str
  deriving DecidableEq

/-- A constructed question instance. -/
inductive QuestionInst where
  | mc (q : MultipleChoiceQuestion)
  | wc (q : WriteCodeQuestion)
  deriving DecidableEq

/-- Embedding of `question_factory`: read the `type` key (the `pop` raises
`KeyError` when it is missing), dispatch on it, and pass the remaining keys
as keyword arguments, so a missing required field or a stray field raises
`TypeError` at the constructor call, and an unknown tag raises
`ValueError`. -/
def question_factory (d : QuestionData) : Except PyError QuestionInst :=
  match d.type with
  | none => .error .keyError
  | some t =>
    if t = "multiple_choice".toList then
      match d.question, d.hints, d.options, d.answer with
      | some q, some h, some o, some a =>
        if d.test_cases = none ∧ d.pre_code = none then
          .ok (.mc (mkMultipleChoiceQuestion q h o a))
        else .error .typeError
      | _, _, _, _ => .error .typeError
    else if t = "write_code".toList then
      match d.question, d.hints, d.test_cases with
      | some q, some h, some tcs =>
        if d.options = none ∧ d.answer = none then
          .ok (.wc (mkWriteCodeQuestion q h tcs d.pre_code))
        else .error .typeError
      | _, _, _ => .error .typeError
    else .error (.valueError none)

/-- The length of the opening literal of the success pattern. -/
theorem ranLit_length : ranLit.length = 14 := rfl

/-- The length of the closing literal of the success pattern. -/
theorem tailLit_length : tailLit.length = 6 := rfl

/-- Splitting a text into lines never yields the empty list. -/
theorem splitLines_ne_nil (cs : Str) : splitLines cs ≠ [] := by
  induction cs with
  | nil => simp [splitLines]
  | cons c cs ih =>
    simp only [splitLines]
    split
    · simp
    · split
      · simp
      · simp

/-- A text without newline characters is a single line. -/
theorem splitLines_eq_of_no_newline {cs : Str} (h : '\n' ∉ cs) :
    splitLines cs = [cs] := by
  induction cs with
  | nil => rfl
  | cons c cs ih =>
    have hc : ¬ c = '\n' := by
      intro hc
      subst hc
      exact h (List.mem_cons_self _ _)
    have hcs : '\n' ∉ cs := fun hm => h (List.mem_cons_of_mem _ hm)
    simp [splitLines, hc, ih hcs]

/-- Splitting distributes over a newline separator. -/
theorem splitLines_append_newline (a b : Str) :
    splitLines (a ++ '\n' :: b) = splitLines a ++ splitLines b := by
  induction a with
  | nil => simp [splitLines]
  | cons c a ih =>
    by_cases hc : c = '\n'
    · subst hc
      simp [splitLines, ih]
    · obtain ⟨l, ls, hls⟩ : ∃ l ls, splitLines a = l :: ls := by
        cases h : splitLines a with
        | nil => exact absurd h (splitLines_ne_nil a)
        | cons l ls => exact ⟨l, ls, rfl⟩
      simp [splitLines, hc, ih, hls]

/-- Two spaces and a newline-free text form a single newline-free line. -/
theorem no_newline_indent {x : Str} (h : '\n' ∉ x) :
    ('\n' : Char) ∉ (' ' :: ' ' :: x) := by
  intro hm
  rcases List.mem_cons.mp hm with h1 | hm2
  · exact absurd h1 (by decide)
  · rcases List.mem_cons.mp hm2 with h1 | hm3
    · exact absurd h1 (by decide)
    · exact h hm3

/-- Indenting and joining newline-free pieces with the newline-indent
separator yields exactly one line per piece, each two-space indented. -/
theorem splitLines_indent_join (xs : List Str) (hne : xs ≠ [])
    (h : ∀ x ∈ xs, '\n' ∉ x) :
    splitLines (' ' :: ' ' :: joinSep ('\n' :: ' ' :: ' ' :: []) xs)
      = xs.map (fun x => ' ' :: ' ' :: x) := by
  induction xs with
  | nil => exact absurd rfl hne
  | cons x xs ih =>
    cases xs with
    | nil =>
      have hx := no_newline_indent (h x (List.mem_cons_self _ _))
      simp [joinSep, splitLines_eq_of_no_newline hx]
    | cons y ys =>
      have hx := no_newline_indent (h x (List.mem_cons_self _ _))
      have key : (' ' :: ' ' :: joinSep ('\n' :: ' ' :: ' ' :: []) (x :: y :: ys))
          = (' ' :: ' ' :: x)
            ++ '\n' :: (' ' :: ' ' :: joinSep ('\n' :: ' ' :: ' ' :: []) (y :: ys)) := by
        simp [joinSep]
      rw [key, splitLines_append_newline, splitLines_eq_of_no_newline hx]
      rw [ih (by simp) (fun z hz => h z (List.mem_cons_of_mem _ hz))]
      simp

/-- The harness text regrouped around its two final newline separators. -/
theorem harness_decomp (q : WriteCodeQuestion) (code : Str) :
    get_test_string q code =
      headerText q code ++ '\n' ::
        ((' ' :: ' ' :: joinSep ('\n' :: ' ' :: ' ' :: [])
            (q.test_cases.map (fun tc => get_assert_equal_string tc.input tc.output)))
          ++ '\n' :: "unittest.main()".toList) := by
  have h1 : "\n  ".toList = '\n' :: ' ' :: ' ' :: [] := rfl
  have h2 : "\nunittest.main()".toList = '\n' :: "unittest.main()".toList := rfl
  simp [get_test_string, headerText, h1, h2, List.append_assoc]

/-- An assertion statement contains no newline when neither inserted
expression does. -/
theorem no_newline_assert {i o : Str} (hi : '\n' ∉ i) (ho : '\n' ∉ o) :
    ('\n' : Char) ∉ get_assert_equal_string i o := by
  intro hm
  simp only [get_assert_equal_string, List.mem_append, List.mem_cons] at hm
  rcases hm with ((((h1 | h2) | h3) | h4) | h5)
  · exact absurd h1 (by decide)
  · exact hi h2
  · rcases h3 with h3 | h3
    · exact absurd h3 (by decide)
    · exact absurd h3 (by simp at h3)
  · exact ho h4
  · rcases h5 with h5 | h5
    · exact absurd h5 (by decide)
    · exact absurd h5 (by simp at h5)

/-- Tab-free text passes through the column-tracking expansion unchanged,
whatever the starting column. -/
theorem expandtabsAux_eq_of_no_tab {cs : Str} (h : '\t' ∉ cs) :
    ∀ col, expandtabsAux cs col = cs := by
  induction cs with
  | nil => intro col; rfl
  | cons c cs ih =>
    intro col
    have hc : ¬ c = '\t' := by
      intro hc
      subst hc
      exact h (List.mem_cons_self _ _)
    have hcs : '\t' ∉ cs := fun hm => h (List.mem_cons_of_mem _ hm)
    by_cases hn : c = '\n' ∨ c = '\r'
    · simp [expandtabsAux, hc, hn, ih hcs]
    · simp [expandtabsAux, hc, hn, ih hcs]

/-- Claim C2, amended: the harness builder emits exactly one
equality-assertion line per test case, in the test cases' original order,
each of the exact textual shape `self.assertEqual(<input>,<output>)` with
both expressions inserted raw (shown here for expressions free of newline
characters, so that each assertion is one line); these lines sit between the
test-method header and the runner line.  At the spec's worked example the
program contains exactly one assertion line `  self.assertEqual(add(1,2),3)`
and exactly one test-method line. -/
theorem C2_assertions :
    (∀ (q : WriteCodeQuestion) (code : Str), q.test_cases ≠ [] →
      (∀ tc ∈ q.test_cases, '\n' ∉ tc.input ∧ '\n' ∉ tc.output) →
      splitLines (get_test_string q code) =
        splitLines (headerText q code)
          ++ q.test_cases.map
              (fun tc => ' ' :: ' ' :: get_assert_equal_string tc.input tc.output)
          ++ ["unittest.main()".toList])
    ∧ (splitLines (get_test_string exampleQ exampleCode)).countP
        (fun l => decide (l = "  self.assertEqual(add(1,2),3)".toList)) = 1
    ∧ (splitLines (get_test_string exampleQ exampleCode)).countP
        (fun l => containsSub ("def test".toList) l) = 1 := by
  refine ⟨?_, by decide, by decide⟩
  intro q code hne h
  rw [harness_decomp, splitLines_append_newline, splitLines_append_newline]
  rw [splitLines_eq_of_no_newline (by decide : ('\n' : Char) ∉ "unittest.main()".toList)]
  rw [splitLines_indent_join _ (by simpa using hne)
    (by
      intro x hx
      rcases List.mem_map.mp hx with ⟨tc, htc, rfl⟩
      exact no_newline_assert (h tc htc).1 (h tc htc).2)]
  simp [List.map_map, Function.comp, List.append_assoc]

/-- Witness for the amended claim C2 at the spec's worked example. -/
theorem C2_assertions_witness :
    splitLines (get_test_string exampleQ exampleCode)
      = splitLines (headerText exampleQ exampleCode)
        ++ [' ' :: ' ' :: get_assert_equal_string ("add(1,2)".toList) ("3".toList)]
        ++ ["unittest.main()".toList] := by
  have h := C2_assertions.1 exampleQ exampleCode (by decide) (by decide)
  simpa [exampleQ, mkWriteCodeQuestion] using h

/-- Claim C2 as stated is false: at the spec's own worked example the
produced program nowhere contains the text `assertEquality(add(1,2),3)` (nor
any `assertEquality` call at all); the assertion the builder actually emits
is `self.assertEqual(add(1,2),3)`. -/
theorem C2_counterexample :
    containsSub ("assertEquality(add(1,2),3)".toList)
      (get_test_string exampleQ exampleCode) = false
    ∧ containsSub ("assertEquality".toList)
        (get_test_string exampleQ exampleCode) = false
    ∧ containsSub ("self.assertEqual(add(1,2),3)".toList)
        (get_test_string exampleQ exampleCode) = true := by
  refine ⟨by decide, by decide, by decide⟩

/-- Claim C3, amended: the harness is assembled deterministically, by pure
string concatenation, in the exact order import line, verbatim `pre_code`
with no inserted separator, tab-expanded candidate code, test-class
declaration with its single test method, the assertions, and the trailing
runner invocation.  The tab normalization is Python's `expandtabs(2)`: each
tab becomes the number of spaces reaching the next even column (two at an
even column, one at an odd column, the column resetting at line breaks), and
a submission without tabs is inserted identically. -/
theorem C3_structure :
    (∀ (q : WriteCodeQuestion) (code : Str),
      get_test_string q code =
        "import unittest\n".toList ++ q.pre_code.getD [] ++ expandtabs2 code
          ++ "\nclass Test(unittest.TestCase):\n def test_cases(self):\n  ".toList
          ++ joinSep ("\n  ".toList)
              (q.test_cases.map (fun tc => get_assert_equal_string tc.input tc.output))
          ++ "\nunittest.main()".toList)
    ∧ (∀ code : Str, '\t' ∉ code → expandtabs2 code = code)
    ∧ expandtabs2 ('a' :: '\t' :: 'b' :: []) = 'a' :: ' ' :: 'b' :: [] := by
  refine ⟨?_, ?_, by decide⟩
  · intro q code
    have hlit : "\nclass Test(unittest.TestCase):\n".toList
        ++ (" def test_cases(self):".toList ++ "\n  ".toList)
        = "\nclass Test(unittest.TestCase):\n def test_cases(self):\n  ".toList := by decide
    cases hp : q.pre_code with
    | none => simp [get_test_string, hp, Option.getD, List.append_assoc, ← hlit]
    | some p => simp [get_test_string, hp, Option.getD, List.append_assoc, ← hlit]
  · intro code h
    exact expandtabsAux_eq_of_no_tab h 0

/-- Witness for the amended claim C3: the worked example's code has no tab
and is inserted unchanged. -/
theorem C3_structure_witness : expandtabs2 exampleCode = exampleCode :=
  C3_structure.2.1 exampleCode (by decide)

/-- Claim C3 as stated is false: on the submission `a<tab>b` the harness
differs from the one the claim describes, because `expandtabs(2)` is
column-aware: the tab after the one-character column expands to a single
space, not to two. -/
theorem C3_counterexample :
    get_test_string exampleQ ('a' :: '\t' :: 'b' :: [])
      ≠ get_test_string_claimed exampleQ ('a' :: '\t' :: 'b' :: [])
    ∧ tabTwoSpaces ('a' :: '\t' :: 'b' :: []) = 'a' :: ' ' :: ' ' :: 'b' :: []
    ∧ expandtabs2 ('a' :: '\t' :: 'b' :: []) = 'a' :: ' ' :: 'b' :: [] := by
  refine ⟨by decide, by decide, by decide⟩

/-- Claim C10: with an empty test-case list the harness contains no
assertion: the test-method header line (the last line of the header text) is
followed by a line of exactly two spaces and then directly by the
test-runner invocation line. -/
theorem C10_empty_tests :
    ∀ (q : WriteCodeQuestion) (code : Str), q.test_cases = [] →
      splitLines (get_test_string q code) =
        splitLines (headerText q code) ++ [[' ', ' '], "unittest.main()".toList] := by
  intro q code h
  rw [harness_decomp, h]
  rw [splitLines_append_newline, splitLines_append_newline]
  rw [splitLines_eq_of_no_newline (by decide : ('\n' : Char) ∉ "unittest.main()".toList)]
  rw [splitLines_eq_of_no_newline
    (by decide : ('\n' : Char) ∉ (' ' :: ' ' :: joinSep ('\n' :: ' ' :: ' ' :: []) (List.map _ [])))]
  simp [joinSep]

/-- The whole-subject matcher accepts exactly the decompositions of the
subject into the two literals around a nonempty non-whitespace token. -/
theorem matchFrom_iff (r : Str) :
    matchFrom r = true
      ↔ ∃ t, t ≠ [] ∧ (∀ c ∈ t, wsChar c = false) ∧ r = ranLit ++ t ++ tailLit := by
  constructor
  · intro h
    simp only [matchFrom, Bool.and_eq_true, decide_eq_true_eq, List.all_eq_true] at h
    obtain ⟨⟨⟨h14, h6⟩, hlen⟩, hmid⟩ := h
    refine ⟨(r.drop 14).take (r.length - 20), ?_, ?_, ?_⟩
    · have hl : ((r.drop 14).take (r.length - 20)).length = r.length - 20 := by
        simp only [List.length_take, List.length_drop]
        omega
      intro hnil
      rw [hnil] at hl
      simp at hl
      omega
    · intro c hc
      have := hmid c hc
      simpa using this
    · have hmidsplit : r.drop 14 = (r.drop 14).take (r.length - 20) ++ tailLit := by
        conv_lhs => rw [← List.take_append_drop (r.length - 20) (r.drop 14)]
        rw [List.drop_drop, show 14 + (r.length - 20) = r.length - 6 by omega, h6]
      calc r = r.take 14 ++ r.drop 14 := (List.take_append_drop 14 r).symm
        _ = ranLit ++ ((r.drop 14).take (r.length - 20) ++ tailLit) := by
            rw [h14, ← hmidsplit]
        _ = ranLit ++ (r.drop 14).take (r.length - 20) ++ tailLit := by
            rw [List.append_assoc]
  · rintro ⟨t, htne, htws, rfl⟩
    have htl : 1 ≤ t.length := List.length_pos.mpr htne
    have hlen : (ranLit ++ t ++ tailLit).length = 20 + t.length := by
      rw [List.length_append, List.length_append, ranLit_length, tailLit_length]
      omega
    simp only [matchFrom, Bool.and_eq_true, decide_eq_true_eq, List.all_eq_true]
    refine ⟨⟨⟨?_, ?_⟩, ?_⟩, ?_⟩
    · rw [List.append_assoc]
      exact List.take_left' ranLit_length
    · have h1 : (ranLit ++ t ++ tailLit).length - 6 = (ranLit ++ t).length := by
        rw [hlen, List.length_append, ranLit_length]
        omega
      rw [h1]
      exact List.drop_left _ _
    · omega
    · have hd : (ranLit ++ t ++ tailLit).drop 14 = t ++ tailLit := by
        rw [List.append_assoc]
        exact List.drop_left' ranLit_length
      have ht : (ranLit ++ t ++ tailLit).length - 20 = t.length := by omega
      rw [hd, ht, List.take_left]
      intro c hc
      simpa using htws c hc

/-- The anchored search accepts exactly the texts ending in the success
pattern. -/
theorem matchEndExact_iff (cs : Str) :
    matchEndExact cs = true ↔ SuccessPattern cs := by
  constructor
  · intro h
    simp only [matchEndExact, List.any_eq_true, List.mem_range] at h
    obtain ⟨i, _, hm⟩ := h
    obtain ⟨t, htne, htws, hdec⟩ := (matchFrom_iff _).mp hm
    refine ⟨cs.take i, t, htne, htws, ?_⟩
    have hsplit := List.take_append_drop i cs
    rw [hdec] at hsplit
    conv_lhs => rw [← hsplit]
    simp [List.append_assoc]
  · rintro ⟨a, t, htne, htws, rfl⟩
    simp only [matchEndExact, List.any_eq_true, List.mem_range]
    refine ⟨a.length, ?_, ?_⟩
    · simp only [List.length_append]
      omega
    · rw [show a ++ ranLit ++ t ++ tailLit = a ++ (ranLit ++ t ++ tailLit) by
        simp [List.append_assoc]]
      rw [List.drop_left]
      exact (matchFrom_iff _).mpr ⟨t, htne, htws, rfl⟩

/-- The before-final-newline branch of the search accepts exactly the texts
that are a success pattern followed by one extra newline. -/
theorem concat_newline_iff (cs : Str) :
    (cs.getLast? = some '\n' ∧ matchEndExact cs.dropLast = true)
      ↔ ∃ cs', cs = cs' ++ ['\n'] ∧ SuccessPattern cs' := by
  constructor
  · rintro ⟨hlast, hm⟩
    rcases cs.eq_nil_or_concat' with rfl | ⟨L, b, rfl⟩
    · simp at hlast
    · rw [List.getLast?_concat] at hlast
      have hb : b = '\n' := by
        injection hlast with hb
      subst hb
      rw [List.dropLast_concat] at hm
      exact ⟨L, rfl, (matchEndExact_iff L).mp hm⟩
  · rintro ⟨cs', rfl, hp⟩
    refine ⟨List.getLast?_concat _, ?_⟩
    rw [List.dropLast_concat]
    exact (matchEndExact_iff cs').mpr hp

/-- Claim C1, amended: the classifier returns true if and only if the
captured text ends — at its very end or just before one extra final newline
character — with `Ran 1 test in <token>s`, a blank line, and `OK` followed
by a newline, where `<token>` is any nonempty run of characters outside the
pattern's Unicode whitespace class `wsChar` (not necessarily a decimal
number). -/
theorem C1_amended_classifier (cs : Str) :
    check_test_search cs = true
      ↔ SuccessPattern cs ∨ ∃ cs', cs = cs' ++ ['\n'] ∧ SuccessPattern cs' := by
  simp only [check_test_search, Bool.or_eq_true, Bool.and_eq_true, decide_eq_true_eq]
  rw [matchEndExact_iff, concat_newline_iff]

/-- Claim C1 as stated is false: the output ending in
`Ran 1 test in 5s`, blank line, `OK`, newline, newline is accepted by the
code's classifier although its elapsed-time token `5` has no fractional
digit and the trailer is followed by an extra newline, so it does not match
the claimed pattern. -/
theorem C1_counterexample :
    check_test_search cexOutput = true ∧ ¬ ClaimedC1 cexOutput := by
  refine ⟨by decide, ?_⟩
  rintro ⟨a, i, f, _, _, _, _, heq⟩
  have h6 : cexOutput.drop (cexOutput.length - 6) = tailLit := by
    rw [heq]
    rw [show a ++ ranLit ++ i ++ '.' :: f ++ tailLit
        = (a ++ ranLit ++ i ++ '.' :: f) ++ tailLit by simp [List.append_assoc]]
    rw [show ((a ++ ranLit ++ i ++ '.' :: f) ++ tailLit).length - 6
        = (a ++ ranLit ++ i ++ '.' :: f).length by
      rw [List.length_append, tailLit_length]
      omega]
    exact List.drop_left _ _
  have h6' : cexOutput.drop (cexOutput.length - 6) ≠ tailLit := by decide
  exact h6' h6

/-- Claim C4, amended: when the sandbox call fails during WriteCode grading,
`check_response` propagates the failure distinctly (it raises, and in
particular never returns the incorrect-answer value), the session status is
left exactly as it was (so an in-progress session stays `IN_PROGRESS`), no
attempt outcome is recorded, and no message at all — in particular no
retry-later message — is sent by the bot: the exception escapes the submit
callback to the framework. -/
theorem C4_service_failure :
    ∀ (prior : QuestionStatus) (q : WriteCodeQuestion) (code : Str)
      (sandbox : Str → SandboxOutcome),
      sandbox (get_test_string q code) = .failure →
      check_response q code sandbox = .error ()
      ∧ (∀ b : Bool, check_response q code sandbox ≠ .ok b)
      ∧ submit_button prior q code sandbox = ⟨prior, [], true⟩ := by
  intro prior q code sandbox h
  have hc : check_response q code sandbox = .error () := by
    simp [check_response, h]
  refine ⟨hc, ?_, ?_⟩
  · intro b hb
    rw [hc] at hb
    exact Except.noConfusion hb
  · simp [submit_button, hc]

/-- Witness for the amended claim C4 with an always-failing sandbox. -/
theorem C4_service_failure_witness :
    check_response exampleQ exampleCode (fun _ => .failure) = .error ()
    ∧ submit_button .IN_PROGRESS exampleQ exampleCode (fun _ => .failure)
        = ⟨.IN_PROGRESS, [], true⟩ := by
  have h := C4_service_failure .IN_PROGRESS exampleQ exampleCode (fun _ => .failure) rfl
  exact ⟨h.1, h.2.2⟩

/-- Claim C4 as stated is false: with a failing sandbox the submit path
sends no signal at all, so the claimed distinct retry-later signal is never
emitted to the user (the status does remain `IN_PROGRESS`). -/
theorem C4_counterexample :
    (submit_button .IN_PROGRESS exampleQ exampleCode (fun _ => .failure)).status
        = .IN_PROGRESS
    ∧ (submit_button .IN_PROGRESS exampleQ exampleCode (fun _ => .failure)).signals = []
    ∧ UserSignal.retryLater
        ∉ (submit_button .IN_PROGRESS exampleQ exampleCode (fun _ => .failure)).signals := by
  refine ⟨rfl, rfl, ?_⟩
  intro hmem
  simp [submit_button, check_response] at hmem

/-- Claim C5: the unlocked-hint count starts at zero at construction, a hint
request never decreases it, never pushes it past the number of hints, is a
no-op at the cap and increments by exactly one below the cap; after `N`
requests from a fresh question the count is `min N H`. -/
theorem C5_hints :
    ∀ (hints : List Str) (N u : Nat),
      hint_iter hints N = min N hints.length
      ∧ u ≤ request_hint hints u
      ∧ (u ≤ hints.length → request_hint hints u ≤ hints.length)
      ∧ (hints.length ≤ u → request_hint hints u = u)
      ∧ (u < hints.length → request_hint hints u = u + 1)
      ∧ (∀ (qt : Str) (o : List (Str × Str)) (a : Str),
          (mkMultipleChoiceQuestion qt hints o a).unlocked_hints = 0)
      ∧ (∀ (qt : Str) (tcs : List TestCase) (pc : Option Str),
          (mkWriteCodeQuestion qt hints tcs pc).unlocked_hints = 0) := by
  intro hints N u
  refine ⟨?_, ?_, ?_, ?_, ?_, fun _ _ _ => rfl, fun _ _ _ => rfl⟩
  · induction N with
    | zero => simp [hint_iter]
    | succ n ih =>
      rw [hint_iter, ih, request_hint]
      split
      · omega
      · omega
  · rw [request_hint]
    split
    · omega
    · omega
  · intro h
    rw [request_hint]
    split
    · omega
    · omega
  · intro h
    rw [request_hint]
    split
    · omega
    · rfl
  · intro h
    rw [request_hint]
    split
    · rfl
    · omega

/-- Witness for claim C5 on a two-hint question. -/
theorem C5_hints_witness :
    hint_iter ["think".toList, "loop".toList] 5 = 2
    ∧ request_hint ["think".toList, "loop".toList] 1 = 2 := by
  have h := C5_hints ["think".toList, "loop".toList] 5 1
  exact ⟨by rw [h.1]; decide, h.2.2.2.2.1 (by decide)⟩

/-- Claim C6, amended: `play_level(use_level)` performs no lookup and raises
nothing; it invokes `run(use_level)` on every registered level, in registry
insertion order, passing the requested id to each of them. -/
theorem C6_play_level :
    ∀ (c : Controller) (i : Int),
      (play_level c i).length = c.levels.length
      ∧ (play_level c i).map Prod.fst = c.levels.map (fun p => p.2.id)
      ∧ (play_level c i).map Prod.snd = List.replicate c.levels.length i := by
  intro c i
  refine ⟨by simp [play_level], by simp [play_level], ?_⟩
  simp only [play_level, List.map_map]
  induction c.levels with
  | nil => rfl
  | cons p rest ih => simp [List.replicate_succ, ih]

/-- Claim C6 as stated is false: on a registry holding levels 1 and 2,
playing level 1 triggers the run behavior of both registered levels, not of
exactly the one requested, and requesting an unregistered id raises nothing
and still triggers every level. -/
theorem C6_counterexample :
    (play_level regAB 1).map Prod.fst = [1, 2]
    ∧ (play_level regAB 1).map Prod.fst ≠ [1]
    ∧ play_level regAB 99 = [(1, 99), (2, 99)] := by
  refine ⟨by decide, by decide, by decide⟩

/-- Witness for claim C10: a question with no test cases yields a harness
whose method body is one two-space line before the runner line. -/
theorem C10_empty_tests_witness :
    splitLines (get_test_string (mkWriteCodeQuestion ("Q".toList) [] [] none) ("x = 1".toList))
      = splitLines (headerText (mkWriteCodeQuestion ("Q".toList) [] [] none) ("x = 1".toList))
        ++ [[' ', ' '], "unittest.main()".toList] :=
  C10_empty_tests _ _ rfl

/-- Registration raises the duplicate-id error when the id is taken. -/
theorem add_level_error_of_dup_id {c : Controller} {lv : Level}
    (h : lv.id ∈ c.levels.map (fun p => p.1)) :
    add_level c lv
      = .error (.valueError (some ("User has completed the level".toList))) := by
  unfold add_level
  rw [if_pos h]

/-- Registration raises the duplicate-position error when the id is fresh
but the position is taken. -/
theorem add_level_error_of_dup_pos {c : Controller} {lv : Level}
    (h1 : lv.id ∉ c.levels.map (fun p => p.1))
    (h2 : lv.map_position ∈ c.levels.map (fun p => p.2.map_position)) :
    add_level c lv = .error (.valueError none) := by
  unfold add_level
  rw [if_neg h1, if_pos h2]

/-- Registration appends the binding when both id and position are fresh. -/
theorem add_level_ok {c : Controller} {lv : Level}
    (h1 : lv.id ∉ c.levels.map (fun p => p.1))
    (h2 : lv.map_position ∉ c.levels.map (fun p => p.2.map_position)) :
    add_level c lv = .ok ⟨c.levels ++ [(lv.id, lv)]⟩ := by
  unfold add_level
  rw [if_neg h1, if_neg h2]

/-- Claim C7: `add_level` fails on a duplicate id, fails on a duplicate map
position, otherwise appends the binding and does nothing else; hence for two
levels sharing an id or a position, registering both fails on the second
insertion.  A raise happens before the mutation, so in a failing call the
registry value is never replaced. -/
theorem C7_add_level :
    ∀ (c : Controller) (lv : Level),
      ((∃ p ∈ c.levels, p.1 = lv.id) → ∃ e, add_level c lv = .error e)
      ∧ ((∃ p ∈ c.levels, p.2.map_position = lv.map_position) →
          ∃ e, add_level c lv = .error e)
      ∧ ((∀ p ∈ c.levels, p.1 ≠ lv.id ∧ p.2.map_position ≠ lv.map_position) →
          add_level c lv = .ok ⟨c.levels ++ [(lv.id, lv)]⟩)
      ∧ (∀ (lv2 : Level) (c1 : Controller),
          lv.id = lv2.id ∨ lv.map_position = lv2.map_position →
          add_level c lv = .ok c1 → ∃ e, add_level c1 lv2 = .error e) := by
  intro c lv
  refine ⟨?_, ?_, ?_, ?_⟩
  · rintro ⟨p, hp, hid⟩
    exact ⟨_, add_level_error_of_dup_id (List.mem_map.mpr ⟨p, hp, hid⟩)⟩
  · rintro ⟨p, hp, hpos⟩
    by_cases h1 : lv.id ∈ c.levels.map (fun p => p.1)
    · exact ⟨_, add_level_error_of_dup_id h1⟩
    · exact ⟨_, add_level_error_of_dup_pos h1 (List.mem_map.mpr ⟨p, hp, hpos⟩)⟩
  · intro h
    have h1 : lv.id ∉ c.levels.map (fun p => p.1) := by
      intro hmem
      rcases List.mem_map.mp hmem with ⟨p, hp, hid⟩
      exact (h p hp).1 hid
    have h2 : lv.map_position ∉ c.levels.map (fun p => p.2.map_position) := by
      intro hmem
      rcases List.mem_map.mp hmem with ⟨p, hp, hpos⟩
      exact (h p hp).2 hpos
    exact add_level_ok h1 h2
  · intro lv2 c1 hdup hok
    by_cases h1 : lv.id ∈ c.levels.map (fun p => p.1)
    · rw [add_level_error_of_dup_id h1] at hok
      exact Except.noConfusion hok
    · by_cases h2 : lv.map_position ∈ c.levels.map (fun p => p.2.map_position)
      · rw [add_level_error_of_dup_pos h1 h2] at hok
        exact Except.noConfusion hok
      · rw [add_level_ok h1 h2] at hok
        have hc1 : (⟨c.levels ++ [(lv.id, lv)]⟩ : Controller) = c1 := Except.ok.inj hok
        subst hc1
        rcases hdup with hid | hpos
        · have hmem : lv2.id ∈ (c.levels ++ [(lv.id, lv)]).map (fun p => p.1) :=
            List.mem_map.mpr ⟨(lv.id, lv), by simp, hid⟩
          exact ⟨_, add_level_error_of_dup_id hmem⟩
        · by_cases hmem1 : lv2.id ∈ (c.levels ++ [(lv.id, lv)]).map (fun p => p.1)
          · exact ⟨_, add_level_error_of_dup_id hmem1⟩
          · have hmem2 : lv2.map_position
                ∈ (c.levels ++ [(lv.id, lv)]).map (fun p => p.2.map_position) :=
              List.mem_map.mpr ⟨(lv.id, lv), by simp, hpos⟩
            exact ⟨_, add_level_error_of_dup_pos hmem1 hmem2⟩

/-- Witness for claim C7: adding a fresh level to an empty registry
succeeds and appends exactly the one binding. -/
theorem C7_add_level_witness :
    add_level ⟨[]⟩ lvlA = .ok ⟨[] ++ [(lvlA.id, lvlA)]⟩ :=
  (C7_add_level ⟨[]⟩ lvlA).2.2.1 (by simp)

/-- The position scan raises when no registered level matches. -/
theorem find_by_position_none (ls : List (Int × Level)) (pos : Int × Int)
    (h : ∀ p ∈ ls, p.2.map_position ≠ pos) :
    find_by_position ls pos = .error (.valueError none) := by
  induction ls with
  | nil => rfl
  | cons p rest ih =>
    have hp := h p (List.mem_cons_self _ _)
    rw [find_by_position, if_neg hp]
    exact ih (fun q hq => h q (List.mem_cons_of_mem _ hq))

/-- A successful position scan returns the first matching level: everything
before it in iteration order has a different position. -/
theorem find_by_position_ok (ls : List (Int × Level)) (pos : Int × Int) (lv : Level) :
    find_by_position ls pos = .ok lv →
    ∃ pre p post, ls = pre ++ p :: post ∧ p.2 = lv ∧ p.2.map_position = pos
      ∧ ∀ q ∈ pre, q.2.map_position ≠ pos := by
  induction ls with
  | nil =>
    intro h
    exact absurd h (by rw [find_by_position]; exact fun hc => Except.noConfusion hc)
  | cons p rest ih =>
    intro h
    by_cases hp : p.2.map_position = pos
    · rw [find_by_position, if_pos hp] at h
      exact ⟨[], p, rest, rfl, Except.ok.inj h, hp, by simp⟩
    · rw [find_by_position, if_neg hp] at h
      obtain ⟨pre, q, post, hls, h2, h3, h4⟩ := ih h
      refine ⟨p :: pre, q, post, by rw [hls]; rfl, h2, h3, ?_⟩
      intro r hr
      rcases List.mem_cons.mp hr with rfl | hr2
      · exact hp
      · exact h4 r hr2

/-- The position scan stops at the first match: if nothing before `p`
matches and `p` does, the scan returns `p`'s level. -/
theorem find_by_position_first (pre : List (Int × Level)) (p : Int × Level)
    (post : List (Int × Level)) (pos : Int × Int)
    (hpre : ∀ q ∈ pre, q.2.map_position ≠ pos) (hp : p.2.map_position = pos) :
    find_by_position (pre ++ p :: post) pos = .ok p.2 := by
  induction pre with
  | nil =>
    rw [List.nil_append, find_by_position, if_pos hp]
  | cons q rest ih =>
    rw [List.cons_append, find_by_position, if_neg (hpre q (List.mem_cons_self _ _))]
    exact ih (fun r hr => hpre r (List.mem_cons_of_mem _ hr))

/-- The position scan succeeds whenever some registered level matches. -/
theorem find_by_position_ok_of_mem (ls : List (Int × Level)) (pos : Int × Int)
    (h : ∃ p ∈ ls, p.2.map_position = pos) :
    ∃ lv, find_by_position ls pos = .ok lv := by
  induction ls with
  | nil =>
    rcases h with ⟨p, hp, _⟩
    exact absurd hp (List.not_mem_nil p)
  | cons p rest ih =>
    by_cases hp : p.2.map_position = pos
    · exact ⟨p.2, by rw [find_by_position, if_pos hp]⟩
    · rcases h with ⟨q, hq, hqpos⟩
      rcases List.mem_cons.mp hq with rfl | hq2
      · exact absurd hqpos hp
      · rcases ih ⟨q, hq2, hqpos⟩ with ⟨lv, hlv⟩
        refine ⟨lv, ?_⟩
        rw [find_by_position, if_neg hp]
        exact hlv

/-- In every registry built through `add_level` the registered map positions
are pairwise distinct. -/
theorem reachable_positions_nodup {c : Controller} (h : Reachable c) :
    (c.levels.map (fun p => p.2.map_position)).Nodup := by
  induction h with
  | empty => simp
  | @step c c' lv _ hok ih =>
    by_cases h1 : lv.id ∈ c.levels.map (fun p => p.1)
    · rw [add_level_error_of_dup_id h1] at hok
      exact Except.noConfusion hok
    · by_cases h2 : lv.map_position ∈ c.levels.map (fun p => p.2.map_position)
      · rw [add_level_error_of_dup_pos h1 h2] at hok
        exact Except.noConfusion hok
      · rw [add_level_ok h1 h2] at hok
        have hc' : (⟨c.levels ++ [(lv.id, lv)]⟩ : Controller) = c' := Except.ok.inj hok
        rw [← hc']
        simp only [List.map_append]
        refine List.nodup_append.mpr ⟨ih, List.nodup_singleton _, ?_⟩
        intro a ha hb
        rw [List.map_singleton, List.mem_singleton] at hb
        subst hb
        exact h2 ha

/-- Claim C9: `get_level_map` scans the registered levels linearly and
returns the first level whose map position equals the argument — in
particular it succeeds, with the first match, whenever some registered level
has that position — and raises when none matches; in any registry built
through `add_level` the positions are unique, so at most one level can
match. -/
theorem C9_get_level_map :
    ∀ (c : Controller) (pos : Int × Int),
      ((∀ p ∈ c.levels, p.2.map_position ≠ pos) →
        get_level_map c pos = .error (.valueError none))
      ∧ (∀ lv, get_level_map c pos = .ok lv →
          ∃ pre p post, c.levels = pre ++ p :: post ∧ p.2 = lv
            ∧ p.2.map_position = pos ∧ ∀ q ∈ pre, q.2.map_position ≠ pos)
      ∧ (∀ pre p post, c.levels = pre ++ p :: post → p.2.map_position = pos →
          (∀ q ∈ pre, q.2.map_position ≠ pos) → get_level_map c pos = .ok p.2)
      ∧ ((∃ p ∈ c.levels, p.2.map_position = pos) →
          ∃ lv, get_level_map c pos = .ok lv)
      ∧ (Reachable c → ∀ p ∈ c.levels, ∀ q ∈ c.levels,
          p.2.map_position = pos → q.2.map_position = pos → p = q) := by
  intro c pos
  refine ⟨fun h => find_by_position_none _ _ h,
    fun lv h => find_by_position_ok _ _ _ h, ?_, ?_, ?_⟩
  · intro pre p post hls hp hpre
    show find_by_position c.levels pos = .ok p.2
    rw [hls]
    exact find_by_position_first pre p post pos hpre hp
  · intro h
    exact find_by_position_ok_of_mem _ _ h
  · intro hr p hp q hq hppos hqpos
    exact List.inj_on_of_nodup_map (reachable_positions_nodup hr) hp hq
      (by rw [hppos, hqpos])

/-- Witness for claim C9: looking up an unused position on the two-level
registry raises, and looking up the first level's position returns that
level. -/
theorem C9_get_level_map_witness :
    get_level_map regAB (5, 5) = .error (.valueError none)
    ∧ get_level_map regAB (0, 0) = .ok lvlA := by
  refine ⟨(C9_get_level_map regAB (5, 5)).1 (by decide), ?_⟩
  exact (C9_get_level_map regAB (0, 0)).2.2.1 [] (1, lvlA) [(2, lvlB)] rfl
    (by decide) (by simp)

/-- Claim C8: the factory dispatches on the `type` discriminator, building a
MultipleChoice question from the fields question, hints, options and answer,
and a WriteCode question from the fields question, hints, test cases and the
optional pre-code; an unknown tag, or a tag whose required fields are
absent, makes construction fail with an error. -/
theorem C8_question_factory :
    ∀ (d : QuestionData),
      (∀ q h o a, d.type = some ("multiple_choice".toList) → d.question = some q →
        d.hints = some h → d.options = some o → d.answer = some a →
        d.test_cases = none → d.pre_code = none →
        question_factory d = .ok (.mc (mkMultipleChoiceQuestion q h o a)))
      ∧ (∀ q h tcs, d.type = some ("write_code".toList) → d.question = some q →
        d.hints = some h → d.test_cases = some tcs →
        d.options = none → d.answer = none →
        question_factory d = .ok (.wc (mkWriteCodeQuestion q h tcs d.pre_code)))
      ∧ (∀ t, d.type = some t → t ≠ "multiple_choice".toList →
          t ≠ "write_code".toList → ∃ e, question_factory d = .error e)
      ∧ (d.type = some ("multiple_choice".toList) →
          d.question = none ∨ d.hints = none ∨ d.options = none ∨ d.answer = none →
          ∃ e, question_factory d = .error e)
      ∧ (d.type = some ("write_code".toList) →
          d.question = none ∨ d.hints = none ∨ d.test_cases = none →
          ∃ e, question_factory d = .error e) := by
  intro d
  obtain ⟨ty, qq, hh, oo, aa, tt, pp⟩ := d
  refine ⟨?_, ?_, ?_, ?_, ?_⟩
  · intro q h o a hty hq hh2 ho ha htc hpc
    simp only at hty hq hh2 ho ha htc hpc
    subst hty hq hh2 ho ha htc hpc
    simp [question_factory]
  · intro q h tcs hty hq hh2 htc ho ha
    simp only at hty hq hh2 htc ho ha
    subst hty hq hh2 htc ho ha
    have hne : ("write_code".toList : Str) ≠ "multiple_choice".toList := by decide
    simp [question_factory, hne]
  · intro t hty h1 h2
    simp only at hty
    subst hty
    refine ⟨.valueError none, ?_⟩
    have h1' : ¬ t = ['m', 'u', 'l', 't', 'i', 'p', 'l', 'e', '_', 'c', 'h', 'o', 'i', 'c', 'e'] := h1
    have h2' : ¬ t = ['w', 'r', 'i', 't', 'e', '_', 'c', 'o', 'd', 'e'] := h2
    simp [question_factory, h1, h2, h1', h2']
  · intro hty hmiss
    simp only at hty
    subst hty
    refine ⟨.typeError, ?_⟩
    rcases hmiss with h | h | h | h <;> simp only at h <;> subst h <;>
      simp [question_factory]
  · intro hty hmiss
    simp only at hty
    subst hty
    have hne : ("write_code".toList : Str) ≠ "multiple_choice".toList := by decide
    refine ⟨.typeError, ?_⟩
    rcases hmiss with h | h | h <;> simp only at h <;> subst h <;>
      simp [question_factory, hne]

/-- Witness for claim C8 on a concrete well-formed definition record. -/
theorem C8_question_factory_witness :
    question_factory
        ⟨some ("multiple_choice".toList), some ("What is 2 + 2?".toList),
          some [], some [("a".toList, "4".toList)], some ("a".toList), none, none⟩
      = .ok (.mc (mkMultipleChoiceQuestion ("What is 2 + 2?".toList) []
          [("a".toList, "4".toList)] ("a".toList))) :=
  (C8_question_factory _).1 _ _ _ _ rfl rfl rfl rfl rfl rfl rfl
